import Mathlib

/-!
Shallow embedding of `ephMPS/mps/mp.py` (class `MatrixProduct`) and proofs
about it.  Machine floats are modelled as exact rationals (every IEEE float
is a rational) where only field operations and comparisons occur, and as
real numbers where a square root is taken (`scipy.linalg.norm`).  Python
`assert`/`raise` failures are modelled with `Except String`.
-/

/-! ### Sweep iteration order (`MatrixProduct.iter_idx_list`, `_switch_domain`)

`iter_idx_list` (mp.py lines 201-206) returns
`range(site_num - 1, 0, -1)` when `is_left_canon` (`qnidx == site_num - 1`)
and `range(0, site_num - 1)` otherwise.  Both `canonicalise` (lines 316-336)
and `compress` (lines 264-314) run `for idx in self.iter_idx_list` with a
loop body that never writes `qnidx`, and finish with `self._switch_domain()`
(lines 240-246), which sets `qnidx` to `0` when `is_left_canon` and to
`site_num - 1` otherwise.  `qnidx` is an integer (Python ints), `site_num`
a natural number. -/

/-- Python `range(start, stop, -1)`: `start, start-1, ..., stop+1`. -/
def pyRangeDown (start stop : ℤ) : List ℤ :=
  (List.range (start - stop).toNat).map (fun k : ℕ => start - (k : ℤ))

/-- Python `range(start, stop)`: `start, start+1, ..., stop-1`. -/
def pyRangeUp (start stop : ℤ) : List ℤ :=
  (List.range (stop - start).toNat).map (fun k : ℕ => start + (k : ℤ))

/-- Source `MatrixProduct.is_left_canon` (mp.py line 193-195). -/
def is_left_canon (siteNum : ℕ) (qnidx : ℤ) : Prop :=
  qnidx = (siteNum : ℤ) - 1

instance (n : ℕ) (q : ℤ) : Decidable (is_left_canon n q) := by
  unfold is_left_canon; infer_instance

/-- Source `MatrixProduct.iter_idx_list` (mp.py lines 201-206). -/
def iter_idx_list (siteNum : ℕ) (qnidx : ℤ) : List ℤ :=
  if is_left_canon siteNum qnidx then
    pyRangeDown ((siteNum : ℤ) - 1) 0
  else
    pyRangeUp 0 ((siteNum : ℤ) - 1)

/-- Source `MatrixProduct._switch_domain` (mp.py lines 240-246). -/
def switch_domain (siteNum : ℕ) (qnidx : ℤ) : ℤ :=
  if is_left_canon siteNum qnidx then 0 else (siteNum : ℤ) - 1

/-- Site indices visited by the loop of `MatrixProduct.canonicalise`
(mp.py line 317): exactly `iter_idx_list`, evaluated at loop entry;
the loop body never assigns `qnidx`. -/
def canonicalise_visits (siteNum : ℕ) (qnidx : ℤ) : List ℤ :=
  iter_idx_list siteNum qnidx

/-- Site indices visited by the loop of `MatrixProduct.compress`
(mp.py line 290): exactly `iter_idx_list`, evaluated at loop entry;
the loop body never assigns `qnidx`. -/
def compress_visits (siteNum : ℕ) (qnidx : ℤ) : List ℤ :=
  iter_idx_list siteNum qnidx

/-- Value of `qnidx` after `canonicalise` returns (mp.py line 336 calls
`_switch_domain`). -/
def canonicalise_final_qnidx (siteNum : ℕ) (qnidx : ℤ) : ℤ :=
  switch_domain siteNum qnidx

/-- Value of `qnidx` after `compress` returns (mp.py line 314 calls
`_switch_domain`). -/
def compress_final_qnidx (siteNum : ℕ) (qnidx : ℤ) : ℤ :=
  switch_domain siteNum qnidx

/-! ### Quantum-number boundary bookkeeping (`MatrixProduct.move_qnidx`) -/

/-- State touched by `move_qnidx`: the per-bond integer label vectors
`qn` (length `site_num + 1`), the boundary index `qnidx` and the total
quantum number `qntot`. -/
structure QnChain where
  qn : List (List ℤ)
  qnidx : ℤ
  qntot : ℤ
deriving DecidableEq

/-- One Python loop `for idx in range(lo, hi+1): qn[idx] = [qntot - i for i in qn[idx]]`,
walking the list with explicit position `i`.  Each position in `[lo, hi]` is
replaced by its complement with respect to `qntot`; iteration order is
irrelevant because positions are updated independently. -/
def flip_go (qntot lo hi : ℤ) : ℤ → List (List ℤ) → List (List ℤ)
  | _, [] => []
  | i, v :: rest =>
    (if lo ≤ i ∧ i ≤ hi then v.map (fun q => qntot - q) else v) ::
      flip_go qntot lo hi (i + 1) rest

def flip_range (qntot lo hi : ℤ) (qn : List (List ℤ)) : List (List ℤ) :=
  flip_go qntot lo hi 0 qn

/-- Source `MatrixProduct.move_qnidx` (mp.py lines 160-173): first loop flips bond
positions `qnidx+1 .. len(qn)-2`, second loop flips positions
`dstidx+1 .. len(qn)-2` (descending in the source, order irrelevant), then
`qnidx` is set to `dstidx`. -/
def move_qnidx (s : QnChain) (dstidx : ℤ) : QnChain :=
  let L : ℤ := (s.qn.length : ℤ)
  let qn1 := flip_range s.qntot (s.qnidx + 1) (L - 2) s.qn
  let qn2 := flip_range s.qntot (dstidx + 1) (L - 2) qn1
  { qn := qn2, qnidx := dstidx, qntot := s.qntot }

/-! ### Threshold configuration (`MatrixProduct.threshold` setter) -/

/-- Source `MatrixProduct.threshold` setter (mp.py lines 78-85): raises
`ValueError` for `v <= 0`, raises for `v == 1`, otherwise stores `v`.
Thresholds are floats, modelled exactly as rationals. -/
def threshold_set (v : ℚ) : Except String ℚ :=
  if v ≤ 0 then .error "non-positive threshold"
  else if v = 1 then .error "ambiguous threshold (1)"
  else .ok v

/-- Stored `_threshold` after an assignment attempt: a raised `ValueError`
propagates before the store, so the previous value `cur` survives. -/
def threshold_after (cur v : ℚ) : ℚ :=
  match threshold_set v with
  | .ok w => w
  | .error _ => cur

/-! ### Total quantum number (`MatrixProduct.qntot` property) -/

/-- State touched by the `qntot` property (mp.py lines 134-144):
`use_dummy_qn` and the stored `_qntot` (None-able). -/
structure QntotState where
  use_dummy_qn : Bool
  stored_qntot : Option ℤ
deriving DecidableEq

/-- Source `qntot` getter (mp.py lines 134-139): returns `0` in dummy mode, else
the stored value. -/
def qntot_get (s : QntotState) : Option ℤ :=
  if s.use_dummy_qn then some 0 else s.stored_qntot

/-- Source `qntot` setter (mp.py lines 141-144): `if not self.use_dummy_qn:
self._qntot = qntot` — in non-dummy mode every assignment overwrites the
stored value unconditionally. -/
def qntot_set (s : QntotState) (v : Option ℤ) : QntotState :=
  if s.use_dummy_qn then s else { s with stored_qntot := v }

/-! ### Truncation policy inside `MatrixProduct.compress` (mp.py lines 302-311)

The singular values returned by the factorisation are floats; because
`scipy.linalg.norm` takes a square root, this part is modelled over `ℝ`. -/

/-- Model of `scipy.linalg.norm(sigma)`: the Euclidean norm of the vector. -/
noncomputable def euclNorm (sigma : List ℝ) : ℝ :=
  Real.sqrt ((sigma.map (fun s => s ^ 2)).sum)

/-- The kept rank `m_trunc` computed by `compress` (mp.py lines 303-310):
`if threshold < 1.0`, `normed_sigma = sigma / norm(sigma)` and
`m_trunc = count_nonzero(normed_sigma > threshold)`; otherwise
`m_trunc = min(int(threshold), len(sigma))` (Python `int` truncates, which
is the floor for the positive thresholds admitted by the setter). -/
noncomputable def m_trunc_policy (sigma : List ℝ) (t : ℝ) : ℕ :=
  if t < 1 then
    (((sigma.map (fun s => s / euclNorm sigma)).filter (fun x => t < x)).length)
  else
    min (Int.toNat ⌊t⌋) sigma.length

/-- Count prescribed by the spec sentence for `0 < threshold < 1`: the
number of entries of `sigma`, after division by the Euclidean norm of
`sigma`, that are strictly greater than the threshold. -/
noncomputable def spec_normed_count (sigma : List ℝ) (t : ℝ) : ℕ :=
  sigma.countP (fun s => decide (t < s / euclNorm sigma))

/-- The `assert m_trunc != 0` guard of `compress` (mp.py line 311): an
`AssertionError` is raised when the policy keeps zero vectors; otherwise
the sweep proceeds with exactly `m_trunc` (no clamping). -/
noncomputable def compress_checked_m_trunc (sigma : List ℝ) (t : ℝ) :
    Except String ℕ :=
  if m_trunc_policy sigma t = 0 then .error "assert m_trunc != 0"
  else .ok (m_trunc_policy sigma t)

/-! ### `MatrixProduct.scale` and `to_complex` (mp.py lines 372-388)

Complex floats are modelled as exact pairs of rationals.  `np.iscomplexobj`
inspects the dtype of the scalar, not its value, so it is carried as a
separate boolean.  The `__setitem__` dtype cast (`array2mt`) is value
preserving in every reachable run: a real chain only receives real values,
and a complex scalar forces promotion first. -/

structure QC where
  re : ℚ
  im : ℚ
deriving DecidableEq

def QC.mul (a b : QC) : QC :=
  ⟨a.re * b.re - a.im * b.im, a.re * b.im + a.im * b.re⟩

/-- The state of a chain that `scale` touches: the flattened site-tensor
values, the dtype flag (`dtype == np.complex128`) and `qnidx`. -/
structure ScaleChain where
  mats : List (List QC)
  dtypeComplex : Bool
  qnidx : ℕ
deriving DecidableEq

/-- Source `MatrixProduct.to_complex` (mp.py lines 380-388): sets the dtype to
`np.complex128` and re-casts every tensor; the cast `complex128(float64)`
keeps every value exactly. -/
def to_complex (c : ScaleChain) : ScaleChain :=
  { c with dtypeComplex := true }

/-- Source `MatrixProduct.scale` (mp.py lines 372-378) on a copy (`inplace` only
selects the receiver): promote to complex when `np.iscomplexobj(val)`,
then `new_mp[self.qnidx] = new_mp[self.qnidx] * val`. -/
def scale (c : ScaleChain) (val : QC) (valIsComplexObj : Bool) : ScaleChain :=
  let new_mp := if valIsComplexObj then to_complex c else c
  { new_mp with
      mats := new_mp.mats.set c.qnidx
        ((new_mp.mats.getD c.qnidx []).map (fun x => QC.mul x val)) }

/-! ### A model of numpy ndarrays, `np.tensordot` and `np.allclose`

Needed by `MatrixProduct.dot` (mp.py lines 347-367) and
`MatrixProduct.__eq__` (lines 437-441).  An array is a shape plus its
entries in row-major order; entries are floats, modelled as exact
rationals (the `dot` and `__eq__` code performs only ring operations and
comparisons on them). -/

structure NDArray where
  shape : List ℕ
  data : List ℚ
deriving DecidableEq

def NDArray.ndim (a : NDArray) : ℕ := a.shape.length

/-- All multi-indices of a shape, in row-major (lexicographic) order. -/
def multiIndices : List ℕ → List (List ℕ)
  | [] => [[]]
  | d :: rest => (List.range d).flatMap (fun i => (multiIndices rest).map (fun is => i :: is))

/-- Row-major flat offset of a multi-index. -/
def flatIdx : List ℕ → List ℕ → ℕ
  | _ :: ds, i :: is => i * (ds.foldr (· * ·) 1) + flatIdx ds is
  | _, _ => 0

/-- Entry of an array at a multi-index (0 outside the stored data). -/
def NDArray.atIdx (a : NDArray) (idx : List ℕ) : ℚ :=
  a.data.getD (flatIdx a.shape idx) 0

/-- Dimensions of a shape at a list of axis positions. -/
def axesDims (shape : List ℕ) (axes : List ℕ) : List ℕ :=
  axes.map (fun p => shape.getD p 0)

/-- Axis positions of an `n`-dimensional array not listed in `axes`. -/
def remAxes (n : ℕ) (axes : List ℕ) : List ℕ :=
  (List.range n).filter (fun p => ¬ axes.contains p)

/-- Rebuild a full multi-index of length `n` from the values `cvals` at the
positions `axes` and the values `rvals` at the positions `rem`. -/
def assembleIdx (n : ℕ) (axes rem : List ℕ) (cvals rvals : List ℕ) : List ℕ :=
  (List.range n).map (fun p =>
    match axes.findIdx? (fun a => a == p) with
    | some k => cvals.getD k 0
    | none => rvals.getD ((rem.findIdx? (fun a => a == p)).getD 0) 0)

/-- Model of `np.tensordot(a, b, axes=(axA, axB))`: checks the axis lists have equal
length, lie in range and select equal dimensions (else `ValueError`), then
sums products over the contracted positions.  The result shape is the
remaining axes of `a` followed by the remaining axes of `b`. -/
def tensordotAxes (a b : NDArray) (axA axB : List ℕ) : Except String NDArray :=
  if axA.length ≠ axB.length then .error "tensordot: axes length mismatch"
  else if axA.any (fun p => a.ndim ≤ p) ∨ axB.any (fun p => b.ndim ≤ p) then
    .error "tensordot: axes out of range"
  else if axesDims a.shape axA ≠ axesDims b.shape axB then
    .error "tensordot: shape-mismatch for sum"
  else
    let remA := remAxes a.ndim axA
    let remB := remAxes b.ndim axB
    let outShape := axesDims a.shape remA ++ axesDims b.shape remB
    let nA := remA.length
    .ok ⟨outShape,
      (multiIndices outShape).map (fun oidx =>
        ((multiIndices (axesDims a.shape axA)).map (fun cidx =>
          a.atIdx (assembleIdx a.ndim axA remA cidx (oidx.take nA)) *
            b.atIdx (assembleIdx b.ndim axB remB cidx (oidx.drop nA)))).sum)⟩

/-- Model of `np.tensordot(a, b, k)` for an integer `k`: contract the last `k` axes
of `a` with the first `k` axes of `b`. -/
def tensordotInt (a b : NDArray) (k : ℕ) : Except String NDArray :=
  tensordotAxes a b ((List.range k).map (fun i => a.ndim - k + i)) (List.range k)

/-- Model of `a.T`: reverse the axes. -/
def NDArray.transposeArr (a : NDArray) : NDArray :=
  ⟨a.shape.reverse, (multiIndices a.shape.reverse).map (fun idx => a.atIdx idx.reverse)⟩

/-- Model of `np.eye(1, 1)`. -/
def eye11 : NDArray := ⟨[1, 1], [1]⟩

/-- Model of `e0[0, 0]`: needs at least two axes, both of positive extent
(else `IndexError`); on a 2-d array this is the scalar (shape `[]`). -/
def index00 (a : NDArray) : Except String NDArray :=
  match a.shape with
  | d0 :: d1 :: rest =>
    if d0 = 0 ∨ d1 = 0 then .error "index 0 is out of bounds"
    else .ok ⟨rest, (multiIndices rest).map (fun idx => a.atIdx (0 :: 0 :: idx))⟩
  | _ => .error "too many indices for array"

/-! ### `MatrixProduct.dot` (mp.py lines 347-367) -/

/-- One iteration of the loop in `dot`: `e0 = tensordot(e0, mt2, 1)`, then
branch on `mt1.ndim` (3 or 4, else `assert False`), contract the leading
axes with `mt1` and transpose.  Note only `mt1` (a tensor of `self`) has
its rank inspected; `mt2`'s rank is never checked. -/
def dotStep (e0 mt1 mt2 : NDArray) : Except String NDArray :=
  match tensordotInt e0 mt2 1 with
  | .error e => .error e
  | .ok e1 =>
    if mt1.ndim = 3 then
      match tensordotAxes e1 mt1 [0, 1] [0, 1] with
      | .error e => .error e
      | .ok e2 => .ok e2.transposeArr
    else if mt1.ndim = 4 then
      match tensordotAxes e1 mt1 [0, 1, 2] [0, 1, 2] with
      | .error e => .error e
      | .ok e2 => .ok e2.transposeArr
    else .error "assert False"

/-- The `for mt1, mt2 in zip(self, other)` loop of `dot`. -/
def dotGo (e0 : NDArray) : List (NDArray × NDArray) → Except String NDArray
  | [] => .ok e0
  | (mt1, mt2) :: rest =>
    match dotStep e0 mt1 mt2 with
    | .error e => .error e
    | .ok e1 => dotGo e1 rest

/-- Source `MatrixProduct.dot` (mp.py lines 347-367): assert equal lengths, fold
the running boundary tensor from `np.eye(1, 1)` over the zipped chains,
return `e0[0, 0]`. -/
def npdot (self other : List NDArray) : Except String NDArray :=
  if self.length ≠ other.length then .error "assert len(self) == len(other)"
  else
    match dotGo eye11 (self.zip other) with
    | .error e => .error e
    | .ok e0 => index00 e0

/-! ### `MatrixProduct.__eq__` (mp.py lines 437-441) -/

/-- Model of `np.broadcast` of two shapes: align right, pad with 1s, each aligned
pair of dimensions must be equal or contain a 1. -/
def bcastShape2 (s1 s2 : List ℕ) : Option (List ℕ) :=
  let n := max s1.length s2.length
  let p1 := List.replicate (n - s1.length) 1 ++ s1
  let p2 := List.replicate (n - s2.length) 1 ++ s2
  let z := p1.zip p2
  if z.all (fun p => p.1 == p.2 || p.1 == 1 || p.2 == 1) then
    some (z.map (fun p => max p.1 p.2))
  else none

/-- Entry of `a` at a broadcast multi-index: drop the leading extra axes,
and read position 0 along axes of extent 1. -/
def bcastGet (a : NDArray) (idx : List ℕ) : ℚ :=
  a.atIdx (((idx.drop (idx.length - a.shape.length)).zip a.shape).map
    (fun p => if p.2 = 1 then 0 else p.1))

/-- Model of `np.allclose(a, b)` with the default tolerances `rtol=1e-5`,
`atol=1e-8`: `|a - b| <= atol + rtol * |b|` at every broadcast index;
non-broadcastable shapes raise `ValueError`. -/
def npAllclose (a b : NDArray) : Except String Bool :=
  match bcastShape2 a.shape b.shape with
  | none => .error "operands could not be broadcast together"
  | some bs => .ok ((multiIndices bs).all (fun idx =>
      decide (|bcastGet a idx - bcastGet b idx| ≤
        1 / 100000000 + (1 / 100000) * |bcastGet b idx|)))

/-- Source `MatrixProduct.__eq__` (mp.py lines 437-441): walk `zip(self, other)`
(which stops at the shorter chain), return `False` on the first pair that
is not `allclose`, else `True`. -/
def mp_eq : List NDArray → List NDArray → Except String Bool
  | m1 :: r1, m2 :: r2 =>
    match npAllclose m1 m2 with
    | .error e => .error e
    | .ok false => .ok false
    | .ok true => mp_eq r1 r2
  | _, _ => .ok true

/-- Well-formed pair of chains for `dot`: every corresponding pair of site
tensors has matching rank 3 (shapes `[r1, p, a]` / `[r2, p, b]`) or
matching rank 4 (shapes `[r1, p, q, a]` / `[r2, p, q, b]`), with equal
physical dimensions, chained bond dimensions, and positive extents. -/
def chainOK : ℕ → ℕ → List (NDArray × NDArray) → Prop
  | _, _, [] => True
  | r1, r2, (m1, m2) :: rest =>
    (∃ p a b, 0 < p ∧ 0 < a ∧ 0 < b ∧
      m1.shape = [r1, p, a] ∧ m2.shape = [r2, p, b] ∧ chainOK a b rest) ∨
    (∃ p q a b, 0 < p ∧ 0 < q ∧ 0 < a ∧ 0 < b ∧
      m1.shape = [r1, p, q, a] ∧ m2.shape = [r2, p, q, b] ∧ chainOK a b rest)

/-! ## Helper lemmas -/

lemma pyRangeDown_natCast (m : ℕ) :
    pyRangeDown (m : ℤ) 0 = ((List.range' 1 m).reverse).map (fun k : ℕ => (k : ℤ)) := by
  rw [pyRangeDown, List.reverse_range', List.map_map]
  have h1 : ((m : ℤ) - 0).toNat = m := by simp
  rw [h1]
  refine List.map_congr_left ?_
  intro i hi
  have him : i ≤ m := (List.mem_range.mp hi).le
  simp [Function.comp, Nat.cast_sub him]

lemma pyRangeUp_natCast (m : ℕ) :
    pyRangeUp 0 (m : ℤ) = (List.range m).map (fun k : ℕ => (k : ℤ)) := by
  rw [pyRangeUp]
  have h1 : ((m : ℤ) - 0).toNat = m := by simp
  rw [h1]
  refine List.map_congr_left ?_
  intro i _
  simp

lemma flip_go_length (t lo hi : ℤ) (l : List (List ℤ)) :
    ∀ i, (flip_go t lo hi i l).length = l.length := by
  induction l with
  | nil => intro i; rfl
  | cons v rest ih => intro i; simp [flip_go, ih]

lemma flip_go_involution (t lo hi : ℤ) (l : List (List ℤ)) :
    ∀ i, flip_go t lo hi i (flip_go t lo hi i l) = l := by
  induction l with
  | nil => intro i; rfl
  | cons v rest ih =>
    intro i
    by_cases hc : lo ≤ i ∧ i ≤ hi
    · simp only [flip_go, if_pos hc, List.map_map, ih]
      congr 1
      have : ((fun q => t - q) ∘ fun q : ℤ => t - q) = id := by
        funext q; simp
      rw [this, List.map_id]
    · simp only [flip_go, if_neg hc, ih]

/-! ## Claim theorems -/

/-- Claim C1: for every chain, if `qnidx == site_num - 1` (left-canonical),
`canonicalise()` and `compress()` visit site indices `site_num-1` down to
`1` in descending order and on completion set `qnidx` to `0`
(right-canonical); if `qnidx == 0` (right-canonical), they visit indices
`0` up to `site_num-2` in ascending order and on completion set `qnidx` to
`site_num-1` (left-canonical). -/
theorem claim_C1_sweep_order (n : ℕ) (q : ℤ) :
    (q = (n : ℤ) - 1 →
      canonicalise_visits n q = ((List.range' 1 (n - 1)).reverse).map (fun k : ℕ => (k : ℤ)) ∧
      compress_visits n q = ((List.range' 1 (n - 1)).reverse).map (fun k : ℕ => (k : ℤ)) ∧
      canonicalise_final_qnidx n q = 0 ∧
      compress_final_qnidx n q = 0) ∧
    (q = 0 →
      canonicalise_visits n q = (List.range (n - 1)).map (fun k : ℕ => (k : ℤ)) ∧
      compress_visits n q = (List.range (n - 1)).map (fun k : ℕ => (k : ℤ)) ∧
      canonicalise_final_qnidx n q = (n : ℤ) - 1 ∧
      compress_final_qnidx n q = (n : ℤ) - 1) := by
  constructor
  · intro hq
    have hlc : is_left_canon n q := hq
    have hvis : iter_idx_list n q =
        ((List.range' 1 (n - 1)).reverse).map (fun k : ℕ => (k : ℤ)) := by
      rw [iter_idx_list, if_pos hlc]
      cases n with
      | zero => rfl
      | succ m =>
        have : ((m + 1 : ℕ) : ℤ) - 1 = (m : ℤ) := by push_cast; ring
        rw [this, pyRangeDown_natCast]
        simp
    refine ⟨hvis, hvis, ?_, ?_⟩ <;>
      simp [canonicalise_final_qnidx, compress_final_qnidx, switch_domain, if_pos hlc]
  · intro hq
    subst hq
    by_cases hlc : is_left_canon n 0
    · -- only possible for n = 1 (and the two clauses agree there)
      have hn : n = 1 := by
        have h1 : (0 : ℤ) = (n : ℤ) - 1 := hlc
        omega
      subst hn
      exact ⟨rfl, rfl, rfl, rfl⟩
    · have hvis : iter_idx_list n 0 = (List.range (n - 1)).map (fun k : ℕ => (k : ℤ)) := by
        rw [iter_idx_list, if_neg hlc]
        cases n with
        | zero => rfl
        | succ m =>
          have : ((m + 1 : ℕ) : ℤ) - 1 = (m : ℤ) := by push_cast; ring
          rw [this, pyRangeUp_natCast]
          simp
      refine ⟨hvis, hvis, ?_, ?_⟩ <;>
        simp [canonicalise_final_qnidx, compress_final_qnidx, switch_domain, if_neg hlc]

theorem claim_C1_sweep_order_witness :
    canonicalise_visits 4 3 = [3, 2, 1] ∧ compress_visits 4 3 = [3, 2, 1] ∧
    compress_final_qnidx 4 3 = 0 ∧
    canonicalise_visits 4 0 = [0, 1, 2] ∧ compress_visits 4 0 = [0, 1, 2] ∧
    canonicalise_final_qnidx 4 0 = 3 := by
  have h1 := (claim_C1_sweep_order 4 3).1 (by norm_num)
  have h2 := (claim_C1_sweep_order 4 0).2 rfl
  exact ⟨h1.1.trans (by decide), h1.2.1.trans (by decide), h1.2.2.2,
    h2.1.trans (by decide), h2.2.1.trans (by decide), h2.2.2.1.trans (by decide)⟩

/-- Claim C3: for every chain with integer qn label vectors, `qntot` set
and `qnidx` equal to some index `A`, calling `move_qnidx(B)` and then
`move_qnidx(A)` restores every qn label vector exactly and restores
`qnidx` to `A` (here: the whole state is restored). -/
theorem claim_C3_move_qnidx_involution (s : QnChain) (B : ℤ) :
    move_qnidx (move_qnidx s B) s.qnidx = s := by
  obtain ⟨qn, A, t⟩ := s
  simp only [move_qnidx, flip_range]
  have hL : ∀ lo hi i, (flip_go t lo hi i qn).length = qn.length :=
    fun lo hi i => flip_go_length t lo hi qn i
  simp only [hL, flip_go_length, flip_go_involution]

/-- Claim C5 counterexample: with `use_dummy_qn = false` and an
established stored value `some 1`, a subsequent assignment of `some 2`
changes the stored value — refuting the claimed immutability. -/
theorem claim_C5_counterexample :
    (⟨false, some 1⟩ : QntotState).use_dummy_qn = false ∧
    qntot_get ⟨false, some 1⟩ = some 1 ∧
    (qntot_set ⟨false, some 1⟩ (some 2)).stored_qntot = some 2 ∧
    (qntot_set ⟨false, some 1⟩ (some 2)).stored_qntot ≠ some 1 := by
  decide

/-- Claim C5 (amended): once `use_dummy_qn` is false, a subsequent
assignment to `qntot` always overwrites the stored value with the
assigned value — assignments are only ignored in dummy-QN mode, so the
stored total quantum number is not immutable. -/
theorem claim_C5_amended (s : QntotState) (v : Option ℤ)
    (h : s.use_dummy_qn = false) :
    (qntot_set s v).stored_qntot = v := by
  simp [qntot_set, h]

theorem claim_C5_amended_witness :
    (qntot_set ⟨false, some 1⟩ (some 2)).stored_qntot = some 2 :=
  claim_C5_amended ⟨false, some 1⟩ (some 2) rfl

/-- Claim C6: assigning the truncation threshold raises exactly when the
value is non-positive or exactly 1; the error is raised by the setter
itself (before any sweep code can run); a rejected assignment leaves the
stored threshold unchanged and an accepted one stores the value. -/
theorem claim_C6_threshold_setter (cur v : ℚ) :
    ((∃ e, threshold_set v = .error e) ↔ (v ≤ 0 ∨ v = 1)) ∧
    ((v ≤ 0 ∨ v = 1) → threshold_after cur v = cur) ∧
    (¬(v ≤ 0 ∨ v = 1) → threshold_set v = .ok v ∧ threshold_after cur v = v) := by
  by_cases h1 : v ≤ 0
  · simp [threshold_set, threshold_after, h1]
  · by_cases h2 : v = 1
    · subst h2
      have h0 : ¬(1 : ℚ) ≤ 0 := by norm_num
      simp [threshold_set, threshold_after, h0]
    · simp [threshold_set, threshold_after, h1, h2]

theorem claim_C6_threshold_setter_witness :
    (∃ e, threshold_set 1 = .error e) ∧
    threshold_after (1 / 1000) 1 = 1 / 1000 ∧
    threshold_set (1 / 2) = .ok (1 / 2) ∧
    threshold_after (1 / 1000) (1 / 2) = 1 / 2 := by
  refine ⟨(claim_C6_threshold_setter (1 / 1000) 1).1.mpr (Or.inr rfl),
    (claim_C6_threshold_setter (1 / 1000) 1).2.1 (Or.inr rfl), ?_, ?_⟩
  · exact ((claim_C6_threshold_setter (1 / 1000) (1 / 2)).2.2 (by norm_num)).1
  · exact ((claim_C6_threshold_setter (1 / 1000) (1 / 2)).2.2 (by norm_num)).2

/-- Claim C7: when the truncation policy yields a kept rank of 0,
`compress` raises (the `assert m_trunc != 0`) rather than clamping the
kept rank to 1 (or any other value) and proceeding. -/
theorem claim_C7_zero_rank_raises (sigma : List ℝ) (t : ℝ)
    (h : m_trunc_policy sigma t = 0) :
    compress_checked_m_trunc sigma t = .error "assert m_trunc != 0" ∧
    ∀ m : ℕ, compress_checked_m_trunc sigma t ≠ .ok m := by
  constructor
  · simp [compress_checked_m_trunc, h]
  · intro m
    simp [compress_checked_m_trunc, h]

theorem claim_C7_zero_rank_raises_witness :
    compress_checked_m_trunc [] 2 = .error "assert m_trunc != 0" ∧
    compress_checked_m_trunc [] 2 ≠ .ok 1 := by
  have h0 : m_trunc_policy ([] : List ℝ) 2 = 0 := by
    rw [m_trunc_policy, if_neg (by norm_num)]
    simp
  exact ⟨(claim_C7_zero_rank_raises [] 2 h0).1, (claim_C7_zero_rank_raises [] 2 h0).2 1⟩

/-- Claim C2: in `compress`, for a non-negative spectrum `sigma`: if
`0 < threshold < 1` the kept rank equals the number of entries of
`sigma`, after division by the Euclidean norm of `sigma`, that are
strictly greater than the threshold; if `threshold > 1` the kept rank
equals `min(floor(threshold), len(sigma))`. -/
theorem claim_C2_truncation_rule (sigma : List ℝ) (t : ℝ)
    (hnn : ∀ s ∈ sigma, 0 ≤ s) :
    (0 < t → t < 1 → m_trunc_policy sigma t = spec_normed_count sigma t) ∧
    (1 < t → m_trunc_policy sigma t = min (Int.toNat ⌊t⌋) sigma.length) := by
  constructor
  · intro _ hlt
    rw [m_trunc_policy, if_pos hlt, spec_normed_count, List.countP_eq_length_filter,
      List.filter_map, List.length_map]
    rfl
  · intro hgt
    rw [m_trunc_policy, if_neg (by linarith)]

theorem claim_C2_truncation_rule_witness :
    m_trunc_policy [3, 4] (1 / 2) = spec_normed_count [3, 4] (1 / 2) ∧
    m_trunc_policy [3, 4] (5 / 2) = min (Int.toNat ⌊(5 / 2 : ℝ)⌋) 2 := by
  have hnn : ∀ s ∈ ([3, 4] : List ℝ), 0 ≤ s := by
    intro s hs
    simp at hs
    rcases hs with h | h <;> rw [h] <;> norm_num
  refine ⟨(claim_C2_truncation_rule [3, 4] (1 / 2) hnn).1 (by norm_num) (by norm_num), ?_⟩
  have h := (claim_C2_truncation_rule [3, 4] (5 / 2) hnn).2 (by norm_num)
  simpa using h

/-- Claim C4: for a fixed sorted non-negative spectrum and thresholds
`0 < t1 < t2 < 1`, the kept rank at `t1` is at least the kept rank at
`t2`. -/
theorem claim_C4_truncation_monotone (sigma : List ℝ) (t1 t2 : ℝ)
    (hsorted : sigma.Chain' (· ≥ ·)) (hnn : ∀ s ∈ sigma, 0 ≤ s)
    (h0 : 0 < t1) (h12 : t1 < t2) (h21 : t2 < 1) :
    m_trunc_policy sigma t2 ≤ m_trunc_policy sigma t1 := by
  rw [m_trunc_policy, if_pos h21, m_trunc_policy, if_pos (by linarith)]
  refine List.Sublist.length_le (List.monotone_filter_right _ ?_)
  intro a ha
  have h2a : t2 < a := of_decide_eq_true ha
  exact decide_eq_true (by linarith)

theorem claim_C4_truncation_monotone_witness :
    m_trunc_policy [4, 3] (1 / 2) ≤ m_trunc_policy [4, 3] (1 / 4) := by
  refine claim_C4_truncation_monotone [4, 3] (1 / 4) (1 / 2) ?_ ?_
    (by norm_num) (by norm_num) (by norm_num)
  · simp [List.chain'_cons]
    norm_num
  · intro s hs
    simp at hs
    rcases hs with h | h <;> rw [h] <;> norm_num

/-- Claim C8: `scale(v)` multiplies only the tensor at index `qnidx` by
`v` and leaves every tensor at any other index unchanged; when `v` is a
complex scalar (`np.iscomplexobj`), the chain is promoted to complex
storage (and the single tensor at `qnidx` is still the only one
multiplied). -/
theorem claim_C8_scale_frame (c : ScaleChain) (val : QC) (b : Bool) (j : ℕ)
    (hq : c.qnidx < c.mats.length) (hj : j ≠ c.qnidx) :
    (scale c val b).mats[j]? = c.mats[j]? ∧
    (scale c val b).mats[c.qnidx]? =
      some ((c.mats.getD c.qnidx []).map (fun x => QC.mul x val)) ∧
    (b = true → (scale c val b).dtypeComplex = true) ∧
    (b = false → (scale c val b).dtypeComplex = c.dtypeComplex) ∧
    (scale c val b).qnidx = c.qnidx := by
  have hmats : (scale c val b).mats =
      c.mats.set c.qnidx ((c.mats.getD c.qnidx []).map (fun x => QC.mul x val)) := by
    cases b <;> rfl
  have hqn : (scale c val b).qnidx = c.qnidx := by
    cases b <;> rfl
  refine ⟨?_, ?_, ?_, ?_, hqn⟩
  · rw [hmats]
    exact List.getElem?_set_ne (Ne.symm hj)
  · rw [hmats]
    exact List.getElem?_set_self hq
  · intro hb
    subst hb
    rfl
  · intro hb
    subst hb
    rfl

theorem claim_C8_scale_frame_witness :
    (scale ⟨[[⟨1, 0⟩], [⟨2, 0⟩]], false, 0⟩ ⟨0, 1⟩ true).mats[1]? = some [⟨2, 0⟩] ∧
    (scale ⟨[[⟨1, 0⟩], [⟨2, 0⟩]], false, 0⟩ ⟨0, 1⟩ true).mats[0]? = some [⟨0, 1⟩] ∧
    (scale ⟨[[⟨1, 0⟩], [⟨2, 0⟩]], false, 0⟩ ⟨0, 1⟩ true).dtypeComplex = true := by
  have h := claim_C8_scale_frame ⟨[[⟨1, 0⟩], [⟨2, 0⟩]], false, 0⟩ ⟨0, 1⟩ true 1
    (by norm_num) (by norm_num)
  refine ⟨h.1.trans rfl, h.2.1.trans ?_, h.2.2.1 rfl⟩
  simp only [List.getD, List.getElem?_cons_zero, Option.getD_some, List.map_cons,
    List.map_nil, Option.some.injEq, QC.mul]
  norm_num

lemma tensordotAxes_ok (a b : NDArray) (axA axB : List ℕ)
    (hlen : axA.length = axB.length)
    (hra : axA.any (fun p => a.ndim ≤ p) = false)
    (hrb : axB.any (fun p => b.ndim ≤ p) = false)
    (hdims : axesDims a.shape axA = axesDims b.shape axB) :
    ∃ d, tensordotAxes a b axA axB =
      .ok ⟨axesDims a.shape (remAxes a.ndim axA) ++
        axesDims b.shape (remAxes b.ndim axB), d⟩ := by
  rw [tensordotAxes, if_neg (by simp [hlen]), if_neg (by simp [hra, hrb]),
    if_neg (by simp [hdims])]
  exact ⟨_, rfl⟩

lemma tdInt_m2rank3 (e0 m2 : NDArray) (x y p b : ℕ)
    (h0 : e0.shape = [x, y]) (h2 : m2.shape = [y, p, b]) :
    ∃ d, tensordotInt e0 m2 1 = .ok ⟨[x, p, b], d⟩ := by
  have hnd0 : e0.ndim = 2 := by simp [NDArray.ndim, h0]
  have hnd2 : m2.ndim = 3 := by simp [NDArray.ndim, h2]
  have hA : (List.range 1).map (fun i => 2 - 1 + i) = [1] := by decide
  have hB : List.range 1 = [0] := by decide
  have hax : tensordotInt e0 m2 1 = tensordotAxes e0 m2 [1] [0] := by
    rw [tensordotInt, hnd0, hA, hB]
  obtain ⟨d, hd⟩ := tensordotAxes_ok e0 m2 [1] [0] rfl
    (by simp [hnd0]) (by simp [hnd2]) (by simp [axesDims, h0, h2])
  refine ⟨d, ?_⟩
  rw [hax, hd]
  have hrA : remAxes e0.ndim [1] = [0] := by rw [hnd0]; rfl
  have hrB : remAxes m2.ndim [0] = [1, 2] := by rw [hnd2]; rfl
  rw [hrA, hrB, h0, h2]
  rfl

lemma tdInt_m2rank4 (e0 m2 : NDArray) (x y p q b : ℕ)
    (h0 : e0.shape = [x, y]) (h2 : m2.shape = [y, p, q, b]) :
    ∃ d, tensordotInt e0 m2 1 = .ok ⟨[x, p, q, b], d⟩ := by
  have hnd0 : e0.ndim = 2 := by simp [NDArray.ndim, h0]
  have hnd2 : m2.ndim = 4 := by simp [NDArray.ndim, h2]
  have hA : (List.range 1).map (fun i => 2 - 1 + i) = [1] := by decide
  have hB : List.range 1 = [0] := by decide
  have hax : tensordotInt e0 m2 1 = tensordotAxes e0 m2 [1] [0] := by
    rw [tensordotInt, hnd0, hA, hB]
  obtain ⟨d, hd⟩ := tensordotAxes_ok e0 m2 [1] [0] rfl
    (by simp [hnd0]) (by simp [hnd2]) (by simp [axesDims, h0, h2])
  refine ⟨d, ?_⟩
  rw [hax, hd]
  have hrA : remAxes e0.ndim [1] = [0] := by rw [hnd0]; rfl
  have hrB : remAxes m2.ndim [0] = [1, 2, 3] := by rw [hnd2]; rfl
  rw [hrA, hrB, h0, h2]
  rfl

lemma tdAxes2_rank3 (e1 m1 : NDArray) (x p b a : ℕ)
    (h1 : e1.shape = [x, p, b]) (hm : m1.shape = [x, p, a]) :
    ∃ d, tensordotAxes e1 m1 [0, 1] [0, 1] = .ok ⟨[b, a], d⟩ := by
  have hnd1 : e1.ndim = 3 := by simp [NDArray.ndim, h1]
  have hndm : m1.ndim = 3 := by simp [NDArray.ndim, hm]
  obtain ⟨d, hd⟩ := tensordotAxes_ok e1 m1 [0, 1] [0, 1] rfl
    (by simp [hnd1]) (by simp [hndm]) (by simp [axesDims, h1, hm])
  refine ⟨d, ?_⟩
  rw [hd]
  have hrA : remAxes e1.ndim [0, 1] = [2] := by rw [hnd1]; rfl
  have hrB : remAxes m1.ndim [0, 1] = [2] := by rw [hndm]; rfl
  rw [hrA, hrB, h1, hm]
  rfl

lemma tdAxes3_rank4 (e1 m1 : NDArray) (x p q b a : ℕ)
    (h1 : e1.shape = [x, p, q, b]) (hm : m1.shape = [x, p, q, a]) :
    ∃ d, tensordotAxes e1 m1 [0, 1, 2] [0, 1, 2] = .ok ⟨[b, a], d⟩ := by
  have hnd1 : e1.ndim = 4 := by simp [NDArray.ndim, h1]
  have hndm : m1.ndim = 4 := by simp [NDArray.ndim, hm]
  obtain ⟨d, hd⟩ := tensordotAxes_ok e1 m1 [0, 1, 2] [0, 1, 2] rfl
    (by simp [hnd1]) (by simp [hndm]) (by simp [axesDims, h1, hm])
  refine ⟨d, ?_⟩
  rw [hd]
  have hrA : remAxes e1.ndim [0, 1, 2] = [3] := by rw [hnd1]; rfl
  have hrB : remAxes m1.ndim [0, 1, 2] = [3] := by rw [hndm]; rfl
  rw [hrA, hrB, h1, hm]
  rfl

lemma tdAxes2_mix (e1 m1 : NDArray) (x p c b a : ℕ)
    (h1 : e1.shape = [x, p, c, b]) (hm : m1.shape = [x, p, a]) :
    ∃ d, tensordotAxes e1 m1 [0, 1] [0, 1] = .ok ⟨[c, b, a], d⟩ := by
  have hnd1 : e1.ndim = 4 := by simp [NDArray.ndim, h1]
  have hndm : m1.ndim = 3 := by simp [NDArray.ndim, hm]
  obtain ⟨d, hd⟩ := tensordotAxes_ok e1 m1 [0, 1] [0, 1] rfl
    (by simp [hnd1]) (by simp [hndm]) (by simp [axesDims, h1, hm])
  refine ⟨d, ?_⟩
  rw [hd]
  have hrA : remAxes e1.ndim [0, 1] = [2, 3] := by rw [hnd1]; rfl
  have hrB : remAxes m1.ndim [0, 1] = [2] := by rw [hndm]; rfl
  rw [hrA, hrB, h1, hm]
  rfl

lemma transposeArr_shape (x : NDArray) : x.transposeArr.shape = x.shape.reverse := rfl

lemma index00_ok (x : NDArray) (s1 s2 : ℕ) (rest : List ℕ)
    (h : x.shape = s1 :: s2 :: rest) (h1 : s1 ≠ 0) (h2 : s2 ≠ 0) :
    ∃ d, index00 x = .ok ⟨rest, d⟩ := by
  simp only [index00, h]
  rw [if_neg (by simp [h1, h2])]
  exact ⟨_, rfl⟩

lemma index00_scalar (x : NDArray) (s1 s2 : ℕ)
    (h : x.shape = [s1, s2]) (h1 : s1 ≠ 0) (h2 : s2 ≠ 0) :
    ∃ v, index00 x = .ok ⟨[], [v]⟩ := by
  refine ⟨x.atIdx [0, 0], ?_⟩
  simp only [index00, h]
  rw [if_neg (by simp [h1, h2])]
  rfl

lemma dotStep_rank3 (e0 m1 m2 : NDArray) (x y p a b : ℕ)
    (h0 : e0.shape = [x, y]) (hm1 : m1.shape = [x, p, a]) (hm2 : m2.shape = [y, p, b]) :
    ∃ e1, dotStep e0 m1 m2 = .ok e1 ∧ e1.shape = [a, b] := by
  obtain ⟨d1, h1⟩ := tdInt_m2rank3 e0 m2 x y p b h0 hm2
  obtain ⟨d2, h2⟩ := tdAxes2_rank3 ⟨[x, p, b], d1⟩ m1 x p b a rfl hm1
  have hnd : m1.ndim = 3 := by simp [NDArray.ndim, hm1]
  refine ⟨NDArray.transposeArr ⟨[b, a], d2⟩, ?_, rfl⟩
  rw [dotStep, h1]
  dsimp only
  rw [if_pos hnd, h2]

lemma dotStep_rank4 (e0 m1 m2 : NDArray) (x y p q a b : ℕ)
    (h0 : e0.shape = [x, y]) (hm1 : m1.shape = [x, p, q, a]) (hm2 : m2.shape = [y, p, q, b]) :
    ∃ e1, dotStep e0 m1 m2 = .ok e1 ∧ e1.shape = [a, b] := by
  obtain ⟨d1, h1⟩ := tdInt_m2rank4 e0 m2 x y p q b h0 hm2
  obtain ⟨d2, h2⟩ := tdAxes3_rank4 ⟨[x, p, q, b], d1⟩ m1 x p q b a rfl hm1
  have hnd : m1.ndim = 4 := by simp [NDArray.ndim, hm1]
  refine ⟨NDArray.transposeArr ⟨[b, a], d2⟩, ?_, rfl⟩
  rw [dotStep, h1]
  dsimp only
  rw [if_neg (by rw [hnd]; norm_num), if_pos hnd, h2]

lemma dotGo_ok (pairs : List (NDArray × NDArray)) :
    ∀ (r1 r2 : ℕ) (e0 : NDArray), 0 < r1 → 0 < r2 → e0.shape = [r1, r2] →
      chainOK r1 r2 pairs →
      ∃ e1 s1 s2, dotGo e0 pairs = .ok e1 ∧ e1.shape = [s1, s2] ∧ 0 < s1 ∧ 0 < s2 := by
  induction pairs with
  | nil =>
    intro r1 r2 e0 h1 h2 he _
    exact ⟨e0, r1, r2, rfl, he, h1, h2⟩
  | cons hd tl ih =>
    intro r1 r2 e0 h1 h2 he hok
    obtain ⟨m1, m2⟩ := hd
    simp only [chainOK] at hok
    rcases hok with ⟨p, a, b, _, ha, hb, hs1, hs2, hrest⟩ |
      ⟨p, q, a, b, _, _, ha, hb, hs1, hs2, hrest⟩
    · obtain ⟨e1, hstep, hshape⟩ := dotStep_rank3 e0 m1 m2 r1 r2 p a b he hs1 hs2
      have : dotGo e0 ((m1, m2) :: tl) = dotGo e1 tl := by
        rw [dotGo, hstep]
      rw [this]
      exact ih a b e1 ha hb hshape hrest
    · obtain ⟨e1, hstep, hshape⟩ := dotStep_rank4 e0 m1 m2 r1 r2 p q a b he hs1 hs2
      have : dotGo e0 ((m1, m2) :: tl) = dotGo e1 tl := by
        rw [dotGo, hstep]
      rw [this]
      exact ih a b e1 ha hb hshape hrest

/-- Claim C9 counterexample: two single-site chains of equal length whose
tensors mismatch in rank (3 for `self`, 4 for `other`) with compatible
dimensions — `dot` raises no error; the contraction goes through and the
call returns a non-scalar (shape `[2]`) array. -/
theorem claim_C9_counterexample :
    ([⟨[1, 2, 1], [2, 3]⟩] : List NDArray).length =
      ([⟨[1, 2, 2, 1], [5, 7, 11, 13]⟩] : List NDArray).length ∧
    (⟨[1, 2, 1], [2, 3]⟩ : NDArray).ndim = 3 ∧
    (⟨[1, 2, 2, 1], [5, 7, 11, 13]⟩ : NDArray).ndim = 4 ∧
    ∃ r : NDArray,
      npdot [⟨[1, 2, 1], [2, 3]⟩] [⟨[1, 2, 2, 1], [5, 7, 11, 13]⟩] = .ok r ∧
      r.shape = [2] := by
  refine ⟨rfl, rfl, rfl, ?_⟩
  obtain ⟨d1, h1⟩ := tdInt_m2rank4 eye11 ⟨[1, 2, 2, 1], [5, 7, 11, 13]⟩ 1 1 2 2 1 rfl rfl
  obtain ⟨d2, h2⟩ :=
    tdAxes2_mix ⟨[1, 2, 2, 1], d1⟩ ⟨[1, 2, 1], [2, 3]⟩ 1 2 2 1 1 rfl rfl
  have hstep : dotStep eye11 ⟨[1, 2, 1], [2, 3]⟩ ⟨[1, 2, 2, 1], [5, 7, 11, 13]⟩ =
      .ok (NDArray.transposeArr ⟨[2, 1, 1], d2⟩) := by
    rw [dotStep, h1]
    dsimp only
    rw [if_pos (show ((⟨[1, 2, 1], [2, 3]⟩ : NDArray)).ndim = 3 from rfl), h2]
  have hgo : dotGo eye11
      [((⟨[1, 2, 1], [2, 3]⟩ : NDArray), (⟨[1, 2, 2, 1], [5, 7, 11, 13]⟩ : NDArray))] =
      .ok (NDArray.transposeArr ⟨[2, 1, 1], d2⟩) := by
    rw [dotGo, hstep]
    rfl
  obtain ⟨d3, h3⟩ := index00_ok (NDArray.transposeArr ⟨[2, 1, 1], d2⟩) 1 1 [2]
    rfl one_ne_zero one_ne_zero
  refine ⟨⟨[2], d3⟩, ?_, rfl⟩
  rw [npdot, if_neg (by norm_num)]
  rw [show ([(⟨[1, 2, 1], [2, 3]⟩ : NDArray)].zip
    [(⟨[1, 2, 2, 1], [5, 7, 11, 13]⟩ : NDArray)]) =
    [((⟨[1, 2, 1], [2, 3]⟩ : NDArray), (⟨[1, 2, 2, 1], [5, 7, 11, 13]⟩ : NDArray))] from rfl]
  rw [hgo]
  dsimp only
  rw [h3]

/-- Claim C9 (amended): `dot` raises an error when the chains have
different lengths; for equal-length chains whose corresponding tensors
have matching rank 3 or matching rank 4 with compatible dimensions, it
returns the scalar produced by the left-to-right contraction with the
running boundary tensor.  A 3-vs-4 rank mismatch between corresponding
tensors is, however, not itself detected (only the rank of each tensor of
`self` is inspected) and need not raise. -/
theorem claim_C9_dot (a b : List NDArray) :
    (a.length ≠ b.length → npdot a b = .error "assert len(self) == len(other)") ∧
    (a.length = b.length → chainOK 1 1 (a.zip b) →
      ∃ v : ℚ, npdot a b = .ok ⟨[], [v]⟩) := by
  constructor
  · intro h
    rw [npdot, if_pos h]
  · intro hlen hok
    obtain ⟨e1, s1, s2, hgo, hshape, hs1, hs2⟩ :=
      dotGo_ok (a.zip b) 1 1 eye11 one_pos one_pos rfl hok
    obtain ⟨v, hv⟩ := index00_scalar e1 s1 s2 hshape
      (Nat.pos_iff_ne_zero.mp hs1) (Nat.pos_iff_ne_zero.mp hs2)
    refine ⟨v, ?_⟩
    rw [npdot, if_neg (by simp [hlen]), hgo]
    dsimp only
    rw [hv]

theorem claim_C9_dot_witness :
    npdot [] [⟨[1, 2, 1], [2, 3]⟩] = .error "assert len(self) == len(other)" ∧
    ∃ v : ℚ, npdot [⟨[1, 2, 1], [1, 2]⟩] [⟨[1, 2, 1], [3, 4]⟩] = .ok ⟨[], [v]⟩ := by
  constructor
  · exact (claim_C9_dot [] [⟨[1, 2, 1], [2, 3]⟩]).1 (by norm_num)
  · refine (claim_C9_dot [⟨[1, 2, 1], [1, 2]⟩] [⟨[1, 2, 1], [3, 4]⟩]).2 rfl ?_
    exact Or.inl ⟨2, 1, 1, one_pos.trans one_lt_two, one_pos, one_pos, rfl, rfl, trivial⟩

/-- Claim C10: `__eq__` compares site tensors pairwise only up to the
length of the shorter chain: whenever every zipped pair of tensors is
`np.allclose`, it returns `True`, even when the site counts differ; in
particular an empty chain compares equal to every chain. -/
theorem claim_C10_eq_shorter_chain :
    (∀ xs ys : List NDArray,
      (∀ p ∈ xs.zip ys, npAllclose p.1 p.2 = .ok true) → mp_eq xs ys = .ok true) ∧
    (∀ ys : List NDArray, mp_eq [] ys = .ok true) := by
  constructor
  · intro xs
    induction xs with
    | nil => intro ys _; cases ys <;> rfl
    | cons x xr ih =>
      intro ys hall
      cases ys with
      | nil => rfl
      | cons y yr =>
        have hxy : npAllclose x y = .ok true :=
          hall (x, y) (by simp [List.zip_cons_cons])
        have htl : ∀ p ∈ xr.zip yr, npAllclose p.1 p.2 = .ok true := by
          intro p hp
          exact hall p (by simp [List.zip_cons_cons, hp])
        rw [mp_eq, hxy]
        exact ih yr htl
  · intro ys
    cases ys <;> rfl

theorem claim_C10_eq_shorter_chain_witness :
    mp_eq [⟨[1], [5]⟩] [⟨[1], [5]⟩, ⟨[1], [7]⟩] = .ok true ∧
    ([⟨[1], [5]⟩] : List NDArray).length ≠
      ([⟨[1], [5]⟩, ⟨[1], [7]⟩] : List NDArray).length ∧
    mp_eq [] [⟨[1], [7]⟩] = .ok true := by
  refine ⟨claim_C10_eq_shorter_chain.1 _ _ ?_, by norm_num, claim_C10_eq_shorter_chain.2 _⟩
  intro p hp
  have hp' : p = ((⟨[1], [5]⟩ : NDArray), (⟨[1], [5]⟩ : NDArray)) := by
    simpa using hp
  subst hp'
  show npAllclose ⟨[1], [5]⟩ ⟨[1], [5]⟩ = .ok true
  rw [npAllclose]
  have hb : bcastShape2 [1] [1] = some [1] := by rfl
  rw [hb]
  simp only [multiIndices, List.flatMap, List.all_cons, List.all_nil]
  norm_num [bcastGet, NDArray.atIdx, flatIdx]
